import Mathlib

/-
  Verification of the natural-language specification of the
  Knowledge-Graph query tool (source: Querying_KG notebook) against a
  shallow embedding of its Python code.

  Strings are modelled as `List Char`.  The Python regular expressions
  used by the code are embedded as executable scanning functions with
  the exact matching discipline of `re.search` / `re.findall` on the
  concrete patterns appearing in the source (leftmost match, ordered
  alternation, lazy groups, case-insensitive comparison on ASCII).
-/

namespace KG

/-! ## Character-level primitives (ASCII model of `re.IGNORECASE`, `\w`, `\s`) -/

/-- Lower-cased character code: ASCII upper-case letters are shifted to
lower case, every other character keeps its code. -/
def lowerCode (c : Char) : Nat :=
  if 65 ≤ c.toNat ∧ c.toNat ≤ 90 then c.toNat + 32 else c.toNat

/-- Case-insensitive character equality, as used by `re.IGNORECASE`. -/
def ciEq (a b : Char) : Bool :=
  decide (lowerCode a = lowerCode b)

/-- Word character for the regex `\b` boundary: `[A-Za-z0-9_]`. -/
def isWordChar (c : Char) : Bool :=
  decide ((65 ≤ c.toNat ∧ c.toNat ≤ 90) ∨ (97 ≤ c.toNat ∧ c.toNat ≤ 122) ∨
    (48 ≤ c.toNat ∧ c.toNat ≤ 57) ∨ c.toNat = 95)

/-- ASCII letter. -/
def isAsciiAlpha (c : Char) : Bool :=
  decide ((65 ≤ c.toNat ∧ c.toNat ≤ 90) ∨ (97 ≤ c.toNat ∧ c.toNat ≤ 122))

/-- Whitespace for the regex `\s` class and Python `str.strip`:
space, tab, newline, carriage return, vertical tab, form feed. -/
def isWs (c : Char) : Bool :=
  decide (c.toNat = 32 ∨ c.toNat = 9 ∨ c.toNat = 10 ∨ c.toNat = 13 ∨
    c.toNat = 11 ∨ c.toNat = 12)

/-- Case-insensitive literal matching: consume `kw` from the front of `s`,
returning the rest of `s` on success. -/
def matchCI : List Char → List Char → Option (List Char)
  | [], s => some s
  | _ :: _, [] => none
  | p :: ps, c :: cs => if ciEq p c then matchCI ps cs else none

/-- The `\b` boundary after a keyword: end of string or a non-word character. -/
def boundaryAfter : List Char → Bool
  | [] => true
  | c :: _ => !isWordChar c

/-! ## Denylist patterns of `validate_cypher_query` -/

def kwDROP : List Char := ['D', 'R', 'O', 'P']
def kwDELETE : List Char := ['D', 'E', 'L', 'E', 'T', 'E']
def kwCREATE : List Char := ['C', 'R', 'E', 'A', 'T', 'E']
def kwSET : List Char := ['S', 'E', 'T']
def kwREMOVE : List Char := ['R', 'E', 'M', 'O', 'V', 'E']
def kwMERGE : List Char := ['M', 'E', 'R', 'G', 'E']
def kwDETACH : List Char := ['D', 'E', 'T', 'A', 'C', 'H']

/-- Does `\bkw\b` match at the start of `s` (the before-boundary is the
caller's responsibility)? -/
def wordHitAt (kw s : List Char) : Bool :=
  (matchCI kw s).elim false boundaryAfter

/-- `\s+` at the front of `s`: one mandatory whitespace character, then a
maximal munch of further whitespace. -/
def wsPlus : List Char → Option (List Char)
  | [] => none
  | c :: cs => if isWs c then some (cs.dropWhile isWs) else none

/-- Does `\bDETACH\s+DELETE\b` match at the start of `s`? -/
def ddHitAt (s : List Char) : Bool :=
  (((matchCI kwDETACH s).bind wsPlus).bind (matchCI kwDELETE)).elim false boundaryAfter

/-- One denylist pattern of `validate_cypher_query.destructive_patterns`:
either `\bKW\b` for a plain keyword or `\bDETACH\s+DELETE\b`. -/
inductive DPat where
  | word (kw : List Char)
  | detachDelete
deriving DecidableEq

/-- Match of one pattern at the start of a suffix. -/
def patHit : DPat → List Char → Bool
  | .word kw, s => wordHitAt kw s
  | .detachDelete, s => ddHitAt s

/-- `re.search` driver: scan every start position; `prevOk` records whether
the character before the current position is a word boundary (start of
string or a non-word character). -/
def scanHits (hit : List Char → Bool) (prevOk : Bool) : List Char → Bool
  | [] => false
  | c :: cs => (prevOk && hit (c :: cs)) || scanHits hit (!isWordChar c) cs

/-- `re.search(pattern, s, re.IGNORECASE) is not None` for a denylist pattern. -/
def patSearch (p : DPat) (s : List Char) : Bool :=
  scanHits (patHit p) true s

/-- The `destructive_patterns` list of the source, in source order. -/
def destructive_patterns : List DPat :=
  [.word kwDROP, .word kwDELETE, .word kwCREATE, .word kwSET,
   .word kwREMOVE, .word kwMERGE, .detachDelete]

/-- Some denylisted pattern occurs (case-insensitively, word-boundary
delimited) in `s`. -/
def mentionsDenied (s : List Char) : Bool :=
  destructive_patterns.any (fun p => patSearch p s)

/-! ## Whitespace stripping and the statement delimiter -/

/-- Drop trailing whitespace (structural recursion form of `rstrip`). -/
def dropTrailWs : List Char → List Char
  | [] => []
  | c :: cs =>
    match dropTrailWs cs with
    | [] => if isWs c then [] else [c]
    | r => c :: r

/-- Python `str.strip()`. -/
def stripChars (s : List Char) : List Char :=
  dropTrailWs (s.dropWhile isWs)

/-- Python `s.endswith(';')`. -/
def endsWithSemi : List Char → Bool
  | [] => false
  | [c] => c == ';'
  | _ :: c :: cs => endsWithSemi (c :: cs)

/-- The clean-up step of `validate_cypher_query`: strip surrounding
whitespace, then append `';'` if absent. -/
def cleanQuery (s : List Char) : List Char :=
  if endsWithSemi (stripChars s) then stripChars s else stripChars s ++ [';']

/-! ## The Validator -/

/-- Source text of a denylist pattern, used in the raised error message. -/
def patText : DPat → List Char
  | .word kw => ('\\' :: 'b' :: kw) ++ ['\\', 'b']
  | .detachDelete => ("\\bDETACH\\s+DELETE\\b").data

/-- Error raised by `validate_cypher_query` (the single `raise` site of the
function; the spec names it `UnsafeQueryError`). -/
inductive VErr where
  | UnsafeQueryError (msg : List Char)
deriving DecidableEq

/-- Message text of the `ValueError` raised by `validate_cypher_query`. -/
def blockedText (p : DPat) : List Char :=
  ("Blocked potentially destructive operation: ").data ++ patText p

instance {ε α : Type} [DecidableEq ε] [DecidableEq α] : DecidableEq (Except ε α) := by
  intro x y
  cases x <;> cases y
  case error.error a b =>
    exact if h : a = b then .isTrue (by rw [h]) else .isFalse (fun hh => h (by cases hh; rfl))
  case ok.ok a b =>
    exact if h : a = b then .isTrue (by rw [h]) else .isFalse (fun hh => h (by cases hh; rfl))
  case error.ok a b => exact .isFalse (fun hh => by cases hh)
  case ok.error a b => exact .isFalse (fun hh => by cases hh)

/-- `validate_cypher_query` from the source: reject if any denylist pattern
matches anywhere (case-insensitively); otherwise strip whitespace and
ensure the trailing `';'`. -/
def validate_cypher_query (q : List Char) : Except VErr (List Char) :=
  match destructive_patterns.find? (fun p => patSearch p q) with
  | some p => .error (.UnsafeQueryError (blockedText p))
  | none => .ok (cleanQuery q)

/-! ## The Extractor (`extract_cypher_from_response`)

The source uses two regular expressions and a final keyword test:
  1. ```` ```(?:cypher|neo4j)?\s*(.*?)``` ```` with `re.DOTALL | re.IGNORECASE`,
     taking the first match's group;
  2. `(MATCH.*?(?:RETURN|;|\n\n|\Z))` with the same flags;
  3. a case-insensitive substring test for MATCH/RETURN/WHERE/WITH.
-/

/-- The backtick character (code 96). -/
def bt : Char := Char.ofNat 96

/-- A code fence: three backticks. -/
def fenceMarks : List Char := [bt, bt, bt]

def tagCypher : List Char := ['c', 'y', 'p', 'h', 'e', 'r']
def tagNeo4j : List Char := ['n', 'e', 'o', '4', 'j']

/-- Literal (case-sensitive) prefix test. -/
def hasPre : List Char → List Char → Bool
  | [], _ => true
  | _ :: _, [] => false
  | a :: as, b :: bs => a == b && hasPre as bs

/-- Split `s` at the first occurrence of ```` ``` ````: returns the part
before it and the part after it, or `none` when no fence occurs.  This is
how the lazy group `(.*?)` followed by the closing fence behaves under
`re.DOTALL`. -/
def splitAtFence : List Char → Option (List Char × List Char)
  | [] => none
  | c :: cs =>
    if hasPre fenceMarks (c :: cs) then some ([], (c :: cs).drop 3)
    else
      match splitAtFence cs with
      | some (g, r) => some (c :: g, r)
      | none => none

/-- Consume the optional `(?:cypher|neo4j)?` tag: ordered alternation,
case insensitive, empty alternative last. -/
def tagStrip (rest : List Char) : List Char :=
  match matchCI tagCypher rest with
  | some r => r
  | none =>
    match matchCI tagNeo4j rest with
    | some r => r
    | none => rest

/-- Attempt the fenced-block pattern anchored at the current position:
opening fence, optional `cypher`/`neo4j` tag, `\s*`, then the lazy group
up to the next fence. -/
def tryFenceAt (s : List Char) : Option (List Char) :=
  if hasPre fenceMarks s then
    match splitAtFence ((tagStrip (s.drop 3)).dropWhile isWs) with
    | some (g, _) => some g
    | none => none
  else none

/-- Leftmost match of the fenced-block pattern: group text of the first
position where the whole pattern matches. -/
def fenceScan : List Char → Option (List Char)
  | [] => none
  | c :: cs =>
    match tryFenceAt (c :: cs) with
    | some g => some g
    | none => fenceScan cs

def kwMATCH : List Char := ['M', 'A', 'T', 'C', 'H']
def kwRETURN : List Char := ['R', 'E', 'T', 'U', 'R', 'N']
def kwWHERE : List Char := ['W', 'H', 'E', 'R', 'E']
def kwWITH : List Char := ['W', 'I', 'T', 'H']

/-- Scan of the lazy tail `.*?(?:RETURN|;|\n\n|\Z)` after `MATCH`: returns
the consumed text including the terminator (alternatives tried in source
order at each position; end of input is the `\Z` fallback). -/
def scanTerm : List Char → List Char
  | [] => []
  | c :: cs =>
    if (matchCI kwRETURN (c :: cs)).isSome then (c :: cs).take 6
    else if c == ';' then [';']
    else if c == '\n' && cs.head? == some '\n' then ['\n', '\n']
    else c :: scanTerm cs

/-- Leftmost match of `(MATCH.*?(?:RETURN|;|\n\n|\Z))`: the group starts at
the first case-insensitive `MATCH` and runs through the first terminator. -/
def matchScan : List Char → Option (List Char)
  | [] => none
  | c :: cs =>
    if (matchCI kwMATCH (c :: cs)).isSome then
      some ((c :: cs).take 5 ++ scanTerm ((c :: cs).drop 5))
    else matchScan cs

/-- Case-insensitive substring test (Python `kw in text.upper()` for the
all-upper keywords used by the source). -/
def containsCI (kw : List Char) : List Char → Bool
  | [] => false
  | c :: cs => (matchCI kw (c :: cs)).isSome || containsCI kw cs

/-- Error raised by `extract_cypher_from_response` (the spec's
`ExtractionError`). -/
inductive ExErr where
  | ExtractionError
deriving DecidableEq

/-- `extract_cypher_from_response` from the source: fenced block first,
then the `MATCH...` span, then the whole response if it mentions any of
the four query keywords, else failure. -/
def extract_cypher_from_response (resp : List Char) : Except ExErr (List Char) :=
  match fenceScan resp with
  | some g => .ok (stripChars g)
  | none =>
    match matchScan resp with
    | some g => .ok (stripChars g)
    | none =>
      if containsCI kwMATCH resp || containsCI kwRETURN resp ||
          containsCI kwWHERE resp || containsCI kwWITH resp then
        .ok (stripChars resp)
      else .error .ExtractionError

/-! ## The Result Interpreter (`provide_intelligent_answer`)

An execution result row is a mapping from column names to printed values.
The external text-generation collaborator is passed in as a function and
the second component of the result counts how many times it was called,
so that "no external call" is a statement about the embedding.
(The spec declares prompt wording out of scope; prompt construction below
keeps the dynamic parts and abbreviates the fixed instruction text.)
-/

/-- One result row: ordered column/value pairs. -/
def Row : Type := List (List Char × List Char)

instance : DecidableEq Row := by
  unfold Row
  infer_instance

/-- Decimal rendering of a number, for the messages that embed counts. -/
def natChars (n : Nat) : List Char := (Nat.repr n).data

/-- The fixed message returned for an empty result set. -/
def noResultsMessage : List Char :=
  ("No results were found for your query. This could mean:\n- The data you\x27re looking for doesn\x27t exist in the database\n- The search criteria might be too specific\n- There might be a slight mismatch in the query logic").data

/-- Rendering of one row for the analysis prompt. -/
def rowText (r : Row) : List Char :=
  match r with
  | [] => []
  | (k, v) :: rest => k ++ ('=' :: v) ++ (' ' :: rowText rest)

/-- Rendering of a list of rows, newline separated. -/
def rowsText : List Row → List Char
  | [] => []
  | r :: rest => rowText r ++ ('\n' :: rowsText rest)

/-- Rendering of the bounded row preview (cap at 50 rows). -/
def rowsPreview (rows : List Row) : List Char :=
  rowsText (rows.take 50)

/-- Column names, as pandas derives them for the prompt context. -/
def columnNames (rows : List Row) : List (List Char) :=
  match rows with
  | [] => []
  | r :: _ => r.map Prod.fst

/-- The analysis prompt of `provide_intelligent_answer` (fixed instruction
text abbreviated; dynamic parts kept). -/
def reasoningPrompt (question query : List Char) (rows : List Row) : List Char :=
  ("Original Question: ").data ++ question ++
    ("\nQuery Executed:\n").data ++ query ++
    ("\nResults Data (first 50 rows):\n").data ++ rowsPreview rows ++
    ("\nNumber of results: ").data ++ natChars rows.length ++
    ("\nData columns: ").data ++ (columnNames rows).flatten

/-- `provide_intelligent_answer` from the source.  `llm` is the external
text-generation collaborator; the `Nat` in the result is the number of
calls made to it.  Empty result set: fixed message, no call.  Otherwise:
the collaborator's answer verbatim, or the degraded message containing the
row count and the error text when the collaborator fails. -/
def provide_intelligent_answer (llm : List Char → Except (List Char) (List Char))
    (question : List Char) (rows : List Row) (query : List Char) :
    List Char × Nat :=
  if rows.isEmpty then (noResultsMessage, 0)
  else
    match llm (reasoningPrompt question query rows) with
    | .ok ans => (ans, 1)
    | .error e =>
      (("Retrieved ").data ++ natChars rows.length ++
        (" results, but couldn\x27t generate detailed analysis. Error: ").data ++ e, 1)

/-! ## The Retry Controller (`query_neo4j_with_reasoning` inner loop)

External collaborators are modelled as an `Oracle`: scripted responses of
the text-generation service for synthesis and repair calls (indexed by
call count; `.error` is a transport/service failure) and scripted outcomes
of the graph-execution collaborator (indexed by call count).
-/

/-- One entry of `previous_attempts`: attempt index, the query variable's
value at failure time, and the error text. -/
structure AttemptRecord where
  idx : Nat
  query : List Char
  error : List Char
deriving DecidableEq

/-- Scripted external collaborators for one session. -/
structure Oracle where
  genResponses : Nat → List Char → Except (List Char) (List Char)
  repairResponses : Nat → List Char → Except (List Char) (List Char)
  execOutcomes : Nat → Except (List Char) (List Row)
  schema : List Char

/-- Serialization of one attempt record, as in
`previous_attempts.append(f"Attempt {attempt}: {cypher} (Error: {error_msg})")`. -/
def recordText (r : AttemptRecord) : List Char :=
  ("Attempt ").data ++ natChars r.idx ++ (": ").data ++ r.query ++
    (" (Error: ").data ++ r.error ++ (")").data

/-- `"\n".join(previous_attempts) if previous_attempts else None`. -/
def serializePrev (l : List AttemptRecord) : Option (List Char) :=
  match l with
  | [] => none
  | r :: rest =>
    some ((r :: rest).foldr (fun a acc => if acc.isEmpty then recordText a
      else recordText a ++ ('\n' :: acc)) [])

/-- The synthesis prompt of `generate_enhanced_cypher` (fixed instruction
text abbreviated; dynamic parts and the conditional previous-attempts
section kept). -/
def basePrompt (question schema : List Char) (prevTxt : Option (List Char)) : List Char :=
  ("Convert this natural language question into a precise Neo4j Cypher query.\nQuestion: ").data ++
    question ++ ("\nAvailable Schema:\n").data ++ schema ++
    (match prevTxt with
     | none => []
     | some t => ("\n\nPrevious failed attempts:\n").data ++ t ++
         ("\nPlease try a different approach.").data)

/-- The correction prompt of `improve_cypher_with_context`. -/
def improvementPrompt (origC errMsg schema : List Char) : List Char :=
  ("The following query failed with an error. Please fix it.\nOriginal Query:\n").data ++
    origC ++ ("\nError Message:\n").data ++ errMsg ++
    ("\nAvailable Schema:\n").data ++ schema

/-- Message wrapper of the `ValueError` raised by `generate_enhanced_cypher`. -/
def genFailMsg (e : List Char) : List Char :=
  ("Failed to generate valid Cypher query: ").data ++ e

/-- Message of the `ValueError` raised by `extract_cypher_from_response`. -/
def extractErrText : List Char :=
  ("Could not extract valid Cypher query from response").data

/-- `generate_enhanced_cypher` from the source: build the prompt, call the
text-generation collaborator (call number `i`), then extract and validate;
any failure is rethrown as `Failed to generate valid Cypher query: ...`. -/
def generate_enhanced_cypher (o : Oracle) (i : Nat) (question : List Char)
    (prevTxt : Option (List Char)) : Except (List Char) (List Char) :=
  match o.genResponses i (basePrompt question o.schema prevTxt) with
  | .error e => .error (genFailMsg e)
  | .ok resp =>
    match extract_cypher_from_response resp with
    | .error .ExtractionError => .error (genFailMsg extractErrText)
    | .ok q =>
      match validate_cypher_query q with
      | .error (.UnsafeQueryError m) => .error (genFailMsg m)
      | .ok v => .ok v

/-- `improve_cypher_with_context` from the source: build the correction
prompt, call the collaborator (repair call number `i`), extract, validate;
any failure along the way yields `none` (never an exception). -/
def improve_cypher_with_context (o : Oracle) (i : Nat) (origC errMsg : List Char) :
    Option (List Char) :=
  match o.repairResponses i (improvementPrompt origC errMsg o.schema) with
  | .error _ => none
  | .ok resp =>
    match extract_cypher_from_response resp with
    | .error .ExtractionError => none
    | .ok q =>
      match validate_cypher_query q with
      | .error _ => none
      | .ok v => some v

/-- `max_attempts = 3` in the source. -/
def maxAttempts : Nat := 3

/-- The loop state of one question's session: the `attempt` counter, the
`previous_attempts` list, the `cypher` local variable (`none` while it is
not yet bound), the number of synthesis and repair calls made so far, and
the log of every query handed to the graph-execution collaborator. -/
structure SessionState where
  attempt : Nat
  prev : List AttemptRecord
  cypher : Option (List Char)
  genIdx : Nat
  repairIdx : Nat
  executed : List (List Char)
deriving DecidableEq

/-- State on entering the retry loop. -/
def initState : SessionState :=
  { attempt := 1, prev := [], cypher := none, genIdx := 0, repairIdx := 0,
    executed := [] }

/-- Terminal result of one session. -/
inductive Outcome where
  | success (query : List Char) (rows : List Row)
  | exhausted (attempts : Nat) (finalError : List Char) (lastQuery : Option (List Char))
  | noInitialQuery (finalError : List Char)
  | fuelOut
deriving DecidableEq

/-- The `except` block of the source loop.  Before the last attempt and
with a bound `cypher` variable: append an attempt record, call the repair
engine, adopt its result into `cypher` when non-null, increment the
attempt counter and continue.  Without a bound `cypher`: leave the loop
(`Could not generate an initial query to improve`).  On the last attempt:
final failure report. -/
def handleFailure (o : Oracle) (st : SessionState) (e : List Char) :
    (Outcome × SessionState) ⊕ SessionState :=
  if st.attempt < maxAttempts then
    match st.cypher with
    | some c =>
      .inr { st with
        prev := st.prev ++ [⟨st.attempt, c, e⟩],
        repairIdx := st.repairIdx + 1,
        cypher := some ((improve_cypher_with_context o st.repairIdx c e).getD c),
        attempt := st.attempt + 1 }
    | none => .inl (.noInitialQuery e, st)
  else .inl (.exhausted st.attempt e st.cypher, st)

/-- One iteration of the source's `while attempt <= max_attempts` loop:
synthesize (always — every iteration starts at Step 1), then execute; a
success is terminal, a failure goes to `handleFailure`. -/
def sessionStep (o : Oracle) (question : List Char) (st : SessionState) :
    (Outcome × SessionState) ⊕ SessionState :=
  if st.attempt > maxAttempts then .inl (.fuelOut, st)
  else
    match generate_enhanced_cypher o st.genIdx question (serializePrev st.prev) with
    | .error e => handleFailure o { st with genIdx := st.genIdx + 1 } e
    | .ok q =>
      match o.execOutcomes st.executed.length with
      | .ok rows =>
        .inl (.success q rows,
          { st with
              genIdx := st.genIdx + 1
              cypher := some q
              executed := st.executed ++ [q] })
      | .error e =>
        handleFailure o
          { st with
              genIdx := st.genIdx + 1
              cypher := some q
              executed := st.executed ++ [q] } e

/-- The retry loop, fuel-bounded (the attempt counter makes more than
`maxAttempts` iterations impossible, so the fuel never runs out from
`initState` with fuel `maxAttempts + 1`). -/
def runSession (o : Oracle) (question : List Char) :
    Nat → SessionState → Outcome × SessionState
  | 0, st => (.fuelOut, st)
  | fuel + 1, st =>
    match sessionStep o question st with
    | .inl r => r
    | .inr st' => runSession o question fuel st'

/-- One question's session, as run by `query_neo4j_with_reasoning`. -/
def run_question (o : Oracle) (question : List Char) : Outcome × SessionState :=
  runSession o question (maxAttempts + 1) initState

/-- A scripted oracle: successful synthesis responses, all executions
fail, repair produces a valid query (which the loop then overwrites by
re-synthesis). -/
def oracleProbe : Oracle :=
  { genResponses := fun i _ =>
      .ok (("MATCH (g").data ++ natChars i ++ (") RETURN g").data ++ natChars i)
    repairResponses := fun j _ =>
      .ok (("MATCH (r").data ++ natChars j ++ (") RETURN r").data ++ natChars j)
    execOutcomes := fun _ => .error ("db rejected the statement").data
    schema := ("Node Book(title)").data }

/-- A scripted oracle with constant responses: synthesis always succeeds
with the same response, every execution fails. -/
def oracleConst : Oracle :=
  { genResponses := fun _ _ => .ok ("MATCH (n) RETURN n").data
    repairResponses := fun _ _ => .ok ("MATCH (n) RETURN n").data
    execOutcomes := fun _ => .error ("db down").data
    schema := [] }

/-- A scripted oracle: synthesis succeeds (distinct query per call), every
execution fails, and the repair service is down, so the Repair Engine
returns null on every call. -/
def oracleNullRepair : Oracle :=
  { genResponses := fun i _ =>
      .ok (("MATCH (g").data ++ natChars i ++ (") RETURN g").data ++ natChars i)
    repairResponses := fun _ _ => .error ("service unavailable").data
    execOutcomes := fun _ => .error ("db rejected the statement").data
    schema := ("Node Book(title)").data }

/-- A scripted oracle: the first execution fails, the Repair Engine then
returns a valid repaired query, and the second execution succeeds.  The
second synthesis call returns a query different from the repaired one, so
the run shows which candidate is actually executed after a repair. -/
def oracleRepairAdopt : Oracle :=
  { genResponses := fun i _ =>
      if i = 0 then .ok ("MATCH (a) RETURN a").data else .ok ("MATCH (b) RETURN b").data
    repairResponses := fun _ _ => .ok ("MATCH (r) RETURN r").data
    execOutcomes := fun k =>
      if k = 0 then .error ("syntax error near a").data
      else .ok [[(("n").data, ("1").data)]]
    schema := ("Node Book(title)").data }

/-- A scripted oracle whose text-generation collaborator is down from the
first call on. -/
def oracleGenFail : Oracle :=
  { genResponses := fun _ _ => .error ("api down").data
    repairResponses := fun _ _ => .error ("api down").data
    execOutcomes := fun _ => .error ("db down").data
    schema := [] }

/-- The session state carried by a step result (terminal or continuing). -/
def resState : (Outcome × SessionState) ⊕ SessionState → SessionState :=
  Sum.elim Prod.snd id

/-- A blank line (two consecutive newlines) occurs in the list. -/
def hasBlankLine : List Char → Bool
  | [] => false
  | [_] => false
  | a :: b :: rest => (a == '\n' && b == '\n') || hasBlankLine (b :: rest)

/-- The condition under which the optional-tag alternation consumes
exactly the tag `T`. -/
def TagOk (T X : List Char) : Prop :=
  T = tagCypher ∨ T = tagNeo4j ∨
    (T = [] ∧ (matchCI tagCypher X).isSome = false ∧
      (matchCI tagNeo4j X).isSome = false)

/-- A response that wraps a query in a cypher-tagged fenced block, with an
earlier fenced block present. -/
def respTwoBlocks : List Char :=
  fenceMarks ++ ("sql\nSELECT 1\n").data ++ fenceMarks ++ (" and ").data ++
    fenceMarks ++ tagCypher ++ ("\nMATCH (n) RETURN n\n").data ++ fenceMarks

/-- The query text wrapped by the cypher-tagged block of `respTwoBlocks`. -/
def wrappedX : List Char := ("\nMATCH (n) RETURN n\n").data

/-! Sanity checks: concrete evaluations of the embedding. -/

example : validate_cypher_query ("DROP TABLE x").data =
    .error (.UnsafeQueryError (blockedText (.word kwDROP))) := by decide

example : validate_cypher_query ("  MATCH (n) RETURN n  ").data =
    .ok ("MATCH (n) RETURN n;").data := by decide

example : validate_cypher_query ("MATCH (n) WHERE n.created IS NOT NULL RETURN n;").data =
    .ok ("MATCH (n) WHERE n.created IS NOT NULL RETURN n;").data := by decide

example : validate_cypher_query ("match (n) detach   delete n").data =
    .error (.UnsafeQueryError (blockedText (.word kwDELETE))) := by decide

example : validate_cypher_query ("MATCH (n) RETURN n.dataset").data =
    .ok ("MATCH (n) RETURN n.dataset;").data := by decide

example : extract_cypher_from_response
    (("before ").data ++ fenceMarks ++ tagCypher ++ ("\nMATCH (n) RETURN n\n").data ++
      fenceMarks ++ (" after").data) =
    .ok ("MATCH (n) RETURN n").data := by decide

example : extract_cypher_from_response
    (fenceMarks ++ ("sql\nSELECT 1\n").data ++ fenceMarks ++ (" and ").data ++
      fenceMarks ++ tagCypher ++ ("\nMATCH (n) RETURN n\n").data ++ fenceMarks) =
    .ok ("sql\nSELECT 1").data := by decide

example : extract_cypher_from_response ("Sure: MATCH (n) RETURN n LIMIT 5").data =
    .ok ("MATCH (n) RETURN").data := by decide

example : extract_cypher_from_response ("MATCH (n)\n\nsome prose").data =
    .ok ("MATCH (n)").data := by decide

example : extract_cypher_from_response ("just the WHERE keyword").data =
    .ok ("just the WHERE keyword").data := by decide

example : extract_cypher_from_response ("no query here").data =
    .error .ExtractionError := by decide

example : (run_question oracleProbe ("q").data).1 =
    .exhausted 3 ("db rejected the statement").data (some ("MATCH (g2) RETURN;").data) := by decide

example : (run_question oracleProbe ("q").data).2.executed =
    [("MATCH (g0) RETURN;").data, ("MATCH (g1) RETURN;").data, ("MATCH (g2) RETURN;").data] := by
  decide

example : (run_question oracleProbe ("q").data).2.prev.length = 2 := by decide

/-! ## Character-level lemmas -/

theorem nonword_nonalpha {c : Char} (h : isWordChar c = false) : isAsciiAlpha c = false := by
  simp only [isWordChar, decide_eq_false_iff_not] at h
  simp only [isAsciiAlpha, decide_eq_false_iff_not]
  omega

theorem ws_nonword {c : Char} (h : isWs c = true) : isWordChar c = false := by
  simp only [isWs, decide_eq_true_eq] at h
  simp only [isWordChar, decide_eq_false_iff_not]
  omega

theorem ciEq_alpha_nonalpha {a c : Char} (ha : isAsciiAlpha a = true)
    (hc : isAsciiAlpha c = false) : ciEq a c = false := by
  simp only [isAsciiAlpha, decide_eq_true_eq, decide_eq_false_iff_not] at ha hc
  simp only [ciEq, decide_eq_false_iff_not, lowerCode]
  split <;> split <;> omega

theorem semi_nonword : isWordChar ';' = false := by decide

/-! ## `matchCI` lemmas -/

theorem matchCI_append_alpha {kw : List Char} (t : List Char)
    (hkw : ∀ c ∈ kw, isAsciiAlpha c = true) (ht : ∀ c ∈ t, isAsciiAlpha c = false) :
    ∀ l, matchCI kw (l ++ t) = (matchCI kw l).map (fun r => r ++ t) := by
  induction kw with
  | nil => intro l; simp [matchCI]
  | cons k ks ih =>
    intro l
    cases l with
    | nil =>
      simp only [List.nil_append, matchCI, Option.map_none]
      cases t with
      | nil => rfl
      | cons c cs =>
        have : ciEq k c = false :=
          ciEq_alpha_nonalpha (hkw k (by simp)) (ht c (by simp))
        simp [matchCI, this]
    | cons x xs =>
      simp only [List.cons_append, matchCI]
      by_cases hx : ciEq k x = true
      · simp only [hx, if_true]
        exact ih (fun c hc => hkw c (by simp [hc])) xs
      · simp [Bool.not_eq_true] at hx
        simp [hx]

theorem matchCI_eqList {kw T : List Char} (h : matchCI kw T = some []) :
    ∀ u, matchCI kw (T ++ u) = some u := by
  induction kw generalizing T with
  | nil =>
    cases T with
    | nil => intro u; rfl
    | cons c cs => simp [matchCI] at h
  | cons k ks ih =>
    cases T with
    | nil => simp [matchCI] at h
    | cons c cs =>
      intro u
      simp only [matchCI] at h ⊢
      by_cases hc : ciEq k c = true
      · simp only [hc, if_true] at h ⊢
        exact ih h u
      · simp [Bool.not_eq_true] at hc
        simp [hc] at h

theorem matchCI_allalpha_none {kw u : List Char} (hk : kw ≠ [])
    (hka : ∀ c ∈ kw, isAsciiAlpha c = true) (hu : ∀ c ∈ u, isAsciiAlpha c = false) :
    matchCI kw u = none := by
  cases kw with
  | nil => exact absurd rfl hk
  | cons k ks =>
    cases u with
    | nil => rfl
    | cons c cs =>
      have h : ciEq k c = false := ciEq_alpha_nonalpha (hka k (by simp)) (hu c (by simp))
      simp [matchCI, h]

theorem boundaryAfter_append {r t : List Char} (ht : ∀ c ∈ t, isWordChar c = false) :
    boundaryAfter (r ++ t) = boundaryAfter r := by
  cases r with
  | nil =>
    cases t with
    | nil => rfl
    | cons c cs => simp [boundaryAfter, ht c (by simp)]
  | cons x xs => rfl

/-! ## Hit-function lemmas: `\bKW\b` -/

theorem wordHitAt_nonalpha_head {k c : Char} {ks cs : List Char}
    (hk : isAsciiAlpha k = true) (hc : isAsciiAlpha c = false) :
    wordHitAt (k :: ks) (c :: cs) = false := by
  have : ciEq k c = false := ciEq_alpha_nonalpha hk hc
  simp [wordHitAt, matchCI, this]

theorem wordHitAt_nil {k : Char} {ks : List Char} : wordHitAt (k :: ks) [] = false := by
  simp [wordHitAt, matchCI]

theorem wordHitAt_append {kw l t : List Char}
    (hkw : ∀ c ∈ kw, isAsciiAlpha c = true) (ht : ∀ c ∈ t, isWordChar c = false) :
    wordHitAt kw (l ++ t) = wordHitAt kw l := by
  have ht' : ∀ c ∈ t, isAsciiAlpha c = false := fun c hc => nonword_nonalpha (ht c hc)
  unfold wordHitAt
  rw [matchCI_append_alpha t hkw ht' l]
  cases h : matchCI kw l with
  | none => rfl
  | some r => simpa using boundaryAfter_append (r := r) ht

/-! ## Hit-function lemmas: `\bDETACH\s+DELETE\b` -/

theorem dropWhile_cons_eq {p : Char → Bool} {cs : List Char} {d : Char} {ds t : List Char}
    (h : cs.dropWhile p = d :: ds) : (cs ++ t).dropWhile p = d :: ds ++ t := by
  induction cs with
  | nil => simp at h
  | cons c cs ih =>
    simp only [List.cons_append, List.dropWhile_cons] at h ⊢
    by_cases hc : p c = true
    · rw [if_pos hc] at h ⊢
      exact ih h
    · rw [if_neg hc] at h ⊢
      injection h with h1 h2
      subst h1; subst h2; rfl

theorem dropWhile_nil_eq {p : Char → Bool} {cs : List Char} (t : List Char)
    (h : cs.dropWhile p = []) : (cs ++ t).dropWhile p = t.dropWhile p := by
  induction cs with
  | nil => simp
  | cons c cs ih =>
    simp only [List.cons_append, List.dropWhile_cons] at h ⊢
    by_cases hc : p c = true
    · rw [if_pos hc] at h ⊢
      exact ih h
    · rw [if_neg hc] at h
      simp at h

theorem dropWhile_sublist_mem {p : Char → Bool} : ∀ {u : List Char} {c : Char},
    c ∈ u.dropWhile p → c ∈ u := by
  intro u
  induction u with
  | nil => intro c hc; simp at hc
  | cons x xs ih =>
    intro c hc
    rw [List.dropWhile_cons] at hc
    by_cases hx : p x = true
    · rw [if_pos hx] at hc
      exact List.mem_cons_of_mem x (ih hc)
    · rw [if_neg hx] at hc
      exact hc

theorem wsPlus_some {c : Char} {cs : List Char} (hc : isWs c = true) :
    wsPlus (c :: cs) = some (cs.dropWhile isWs) := by
  simp [wsPlus, hc]

theorem wsPlus_none {c : Char} {cs : List Char} (hc : isWs c = false) :
    wsPlus (c :: cs) = none := by
  simp [wsPlus, hc]

theorem ddHitAt_nil : ddHitAt [] = false := by decide

theorem ddHitAt_nonalpha_head {c : Char} {cs : List Char} (hc : isAsciiAlpha c = false) :
    ddHitAt (c :: cs) = false := by
  have h : ciEq 'D' c = false := ciEq_alpha_nonalpha (by decide) hc
  simp [ddHitAt, kwDETACH, matchCI, h]

theorem ddHitAt_append {l t : List Char} (ht : ∀ c ∈ t, isWordChar c = false) :
    ddHitAt (l ++ t) = ddHitAt l := by
  have ht' : ∀ c ∈ t, isAsciiAlpha c = false := fun c hc => nonword_nonalpha (ht c hc)
  unfold ddHitAt
  rw [matchCI_append_alpha t (by decide) ht' l]
  cases h1 : matchCI kwDETACH l with
  | none => rfl
  | some r1 =>
    simp only [Option.map_some', Option.some_bind]
    cases r1 with
    | nil =>
      simp only [List.nil_append]
      cases t with
      | nil => rfl
      | cons c cs =>
        by_cases hc : isWs c = true
        · rw [wsPlus_some hc, Option.some_bind,
            matchCI_allalpha_none (by decide) (by decide)
              (fun d hd => ht' d (List.mem_cons_of_mem c (dropWhile_sublist_mem hd)))]
          rfl
        · simp only [Bool.not_eq_true] at hc
          rw [wsPlus_none hc]
          rfl
    | cons c cs =>
      by_cases hc : isWs c = true
      · rw [List.cons_append, wsPlus_some hc, wsPlus_some hc, Option.some_bind,
          Option.some_bind]
        cases hdw : cs.dropWhile isWs with
        | nil =>
          rw [dropWhile_nil_eq t hdw]
          rw [matchCI_allalpha_none (by decide) (by decide)
            (fun d hd => ht' d (dropWhile_sublist_mem hd))]
          rfl
        | cons d ds =>
          rw [dropWhile_cons_eq hdw]
          rw [show d :: ds ++ t = (d :: ds) ++ t from rfl,
            matchCI_append_alpha t (by decide) ht' (d :: ds)]
          cases h2 : matchCI kwDELETE (d :: ds) with
          | none => rfl
          | some r3 =>
            simp only [Option.map_some', Option.elim_some]
            exact boundaryAfter_append (r := r3) ht
      · simp only [Bool.not_eq_true] at hc
        rw [List.cons_append, wsPlus_none hc, wsPlus_none hc]

/-! ## Scan lemmas -/

theorem scanHits_false_of_nonalpha {hit : List Char → Bool} {t : List Char}
    (Hnil : hit [] = false)
    (Hhead : ∀ c cs, isAsciiAlpha c = false → hit (c :: cs) = false)
    (ht : ∀ c ∈ t, isAsciiAlpha c = false) : ∀ p, scanHits hit p t = false := by
  induction t with
  | nil => intro p; rfl
  | cons c cs ih =>
    intro p
    simp only [scanHits, Hhead c cs (ht c (by simp)), Bool.and_false, Bool.false_or]
    exact ih (fun d hd => ht d (by simp [hd])) _

theorem scanHits_append {hit : List Char → Bool} {t : List Char}
    (Hnil : hit [] = false)
    (Hhead : ∀ c cs, isAsciiAlpha c = false → hit (c :: cs) = false)
    (Happ : ∀ l, hit (l ++ t) = hit l)
    (ht : ∀ c ∈ t, isAsciiAlpha c = false) :
    ∀ s p, scanHits hit p (s ++ t) = scanHits hit p s := by
  intro s
  induction s with
  | nil =>
    intro p
    simpa using scanHits_false_of_nonalpha Hnil Hhead ht p
  | cons c cs ih =>
    intro p
    rw [List.cons_append]
    simp only [scanHits]
    rw [← List.cons_append, Happ (c :: cs), ih]

theorem scanHits_ws_pre {hit : List Char → Bool} {t : List Char}
    (Hhead : ∀ c cs, isAsciiAlpha c = false → hit (c :: cs) = false)
    (ht : ∀ c ∈ t, isWs c = true) :
    ∀ s, scanHits hit true (t ++ s) = scanHits hit true s := by
  induction t with
  | nil => intro s; rfl
  | cons c cs ih =>
    intro s
    have hca : isAsciiAlpha c = false := nonword_nonalpha (ws_nonword (ht c (by simp)))
    have hcw : isWordChar c = false := ws_nonword (ht c (by simp))
    simp only [List.cons_append, scanHits, Hhead _ _ hca, Bool.and_false, Bool.false_or, hcw,
      Bool.not_false]
    exact ih (fun d hd => ht d (by simp [hd])) s

/-! ## Denylist-search preservation -/

theorem patSearch_append {p : DPat} (hp : p ∈ destructive_patterns) {s t : List Char}
    (ht : ∀ c ∈ t, isWordChar c = false) : patSearch p (s ++ t) = patSearch p s := by
  have ht' : ∀ c ∈ t, isAsciiAlpha c = false := fun c hc => nonword_nonalpha (ht c hc)
  simp only [destructive_patterns, List.mem_cons, List.not_mem_nil, or_false] at hp
  rcases hp with rfl | rfl | rfl | rfl | rfl | rfl | rfl <;>
    simp only [patSearch, patHit] <;>
    first
    | exact scanHits_append wordHitAt_nil
        (fun c cs hc => wordHitAt_nonalpha_head (by decide) hc)
        (fun l => wordHitAt_append (by decide) ht) ht' s true
    | exact scanHits_append ddHitAt_nil
        (fun c cs hc => ddHitAt_nonalpha_head hc)
        (fun l => ddHitAt_append ht) ht' s true

theorem patSearch_ws_pre {p : DPat} (hp : p ∈ destructive_patterns) {s t : List Char}
    (ht : ∀ c ∈ t, isWs c = true) : patSearch p (t ++ s) = patSearch p s := by
  simp only [destructive_patterns, List.mem_cons, List.not_mem_nil, or_false] at hp
  rcases hp with rfl | rfl | rfl | rfl | rfl | rfl | rfl <;>
    simp only [patSearch, patHit] <;>
    first
    | exact scanHits_ws_pre
        (fun c cs hc => wordHitAt_nonalpha_head (by decide) hc) ht s
    | exact scanHits_ws_pre (fun c cs hc => ddHitAt_nonalpha_head hc) ht s

theorem any_patSearch_aux {s1 s2 : List Char} : ∀ l : List DPat,
    (∀ p ∈ l, patSearch p s1 = patSearch p s2) →
    (l.any fun p => patSearch p s1) = (l.any fun p => patSearch p s2) := by
  intro l
  induction l with
  | nil => intro _; rfl
  | cons q qs ih =>
    intro h
    simp only [List.any_cons, h q (by simp), ih (fun p hp => h p (by simp [hp]))]

theorem any_patSearch_congr {s1 s2 : List Char}
    (h : ∀ p ∈ destructive_patterns, patSearch p s1 = patSearch p s2) :
    mentionsDenied s1 = mentionsDenied s2 :=
  any_patSearch_aux destructive_patterns h

theorem mentionsDenied_append_inert {s t : List Char}
    (ht : ∀ c ∈ t, isWordChar c = false) : mentionsDenied (s ++ t) = mentionsDenied s :=
  any_patSearch_congr (fun p hp => patSearch_append hp ht)

theorem mentionsDenied_ws_pre {s t : List Char}
    (ht : ∀ c ∈ t, isWs c = true) : mentionsDenied (t ++ s) = mentionsDenied s :=
  any_patSearch_congr (fun p hp => patSearch_ws_pre hp ht)

/-! ## Strip lemmas -/

theorem dropTrailWs_cons (c : Char) (cs : List Char) :
    dropTrailWs (c :: cs) =
      (match dropTrailWs cs with
       | [] => if isWs c then [] else [c]
       | r => c :: r) := rfl

theorem dropTrailWs_decomp : ∀ l : List Char,
    ∃ w, l = dropTrailWs l ++ w ∧ ∀ c ∈ w, isWs c = true := by
  intro l
  induction l with
  | nil => exact ⟨[], rfl, by simp⟩
  | cons c cs ih =>
    obtain ⟨w, hw, hws⟩ := ih
    cases h : dropTrailWs cs with
    | nil =>
      rw [h] at hw
      simp only [List.nil_append] at hw
      by_cases hc : isWs c = true
      · refine ⟨c :: cs, ?_, ?_⟩
        · rw [dropTrailWs_cons, h]
          show c :: cs = (if isWs c then [] else [c]) ++ (c :: cs)
          simp [hc]
        · intro d hd
          rcases List.mem_cons.mp hd with rfl | hd
          · exact hc
          · exact hws d (hw ▸ hd)
      · simp only [Bool.not_eq_true] at hc
        refine ⟨w, ?_, hws⟩
        rw [dropTrailWs_cons, h]
        show c :: cs = (if isWs c then [] else [c]) ++ w
        simp [hc, hw]
    | cons d ds =>
      refine ⟨w, ?_, hws⟩
      rw [dropTrailWs_cons, h]
      show c :: cs = (c :: (d :: ds)) ++ w
      rw [← h, List.cons_append, ← hw]

theorem dropTrailWs_head? {l : List Char} (h : dropTrailWs l ≠ []) :
    (dropTrailWs l).head? = l.head? := by
  cases l with
  | nil => simp [dropTrailWs] at h
  | cons c cs =>
    rw [dropTrailWs_cons] at h ⊢
    revert h
    cases dropTrailWs cs with
    | nil =>
      intro h
      by_cases hc : isWs c = true
      · simp [hc] at h
      · simp [hc]
    | cons d ds =>
      intro _
      simp

theorem dropTrailWs_getLast_not_ws : ∀ {l : List Char} {c : Char},
    (dropTrailWs l).getLast? = some c → isWs c = false := by
  intro l
  induction l with
  | nil => intro c h; simp [dropTrailWs] at h
  | cons x xs ih =>
    intro c h
    rw [dropTrailWs_cons] at h
    revert h
    cases hxs : dropTrailWs xs with
    | nil =>
      intro h
      by_cases hx : isWs x = true
      · simp [hx] at h
      · simp only [Bool.not_eq_true] at hx
        simp [hx] at h
        rw [← h]
        exact hx
    | cons d ds =>
      intro h
      have h2 : (d :: ds).getLast? = some c := by
        have h3 : (x :: d :: ds).getLast? = some c := h
        rwa [List.getLast?_cons_cons] at h3
      exact ih (by rw [hxs]; exact h2)

theorem dropTrailWs_eq_self {l : List Char}
    (h : ∀ c, l.getLast? = some c → isWs c = false) : dropTrailWs l = l := by
  induction l with
  | nil => rfl
  | cons x xs ih =>
    cases xs with
    | nil =>
      have hx := h x (by simp)
      simp [dropTrailWs, hx]
    | cons y ys =>
      have hxs : dropTrailWs (y :: ys) = y :: ys :=
        ih (fun c hc => h c (by rwa [List.getLast?_cons_cons]))
      rw [dropTrailWs_cons, hxs]

theorem dropWhile_head_not {p : Char → Bool} : ∀ {l : List Char} {c : Char},
    (l.dropWhile p).head? = some c → p c = false := by
  intro l
  induction l with
  | nil => intro c h; simp at h
  | cons x xs ih =>
    intro c h
    by_cases hx : p x = true
    · rw [List.dropWhile_cons, if_pos hx] at h
      exact ih h
    · rw [List.dropWhile_cons, if_neg hx] at h
      simp only [Bool.not_eq_true] at hx
      simp at h
      rw [← h]
      exact hx

theorem dropWhile_eq_self_of_head {l : List Char}
    (h : ∀ c, l.head? = some c → isWs c = false) : l.dropWhile isWs = l := by
  cases l with
  | nil => rfl
  | cons c cs =>
    rw [List.dropWhile_cons, if_neg]
    simp [h c (by simp)]

theorem stripChars_eq_self {s : List Char}
    (hh : ∀ c, s.head? = some c → isWs c = false)
    (hl : ∀ c, s.getLast? = some c → isWs c = false) : stripChars s = s := by
  unfold stripChars
  rw [dropWhile_eq_self_of_head hh, dropTrailWs_eq_self hl]

theorem stripChars_head_not_ws {s : List Char} {c : Char}
    (h : (stripChars s).head? = some c) : isWs c = false := by
  unfold stripChars at h
  have hne : dropTrailWs (s.dropWhile isWs) ≠ [] := by
    intro hnil
    rw [hnil] at h
    simp at h
  rw [dropTrailWs_head? hne] at h
  exact dropWhile_head_not h

theorem stripChars_getLast_not_ws {s : List Char} {c : Char}
    (h : (stripChars s).getLast? = some c) : isWs c = false :=
  dropTrailWs_getLast_not_ws h

theorem stripChars_idem (s : List Char) : stripChars (stripChars s) = stripChars s :=
  stripChars_eq_self (fun _ h => stripChars_head_not_ws h)
    (fun _ h => stripChars_getLast_not_ws h)

theorem mentionsDenied_stripChars (s : List Char) :
    mentionsDenied (stripChars s) = mentionsDenied s := by
  unfold stripChars
  obtain ⟨w, hw, hws⟩ := dropTrailWs_decomp (s.dropWhile isWs)
  calc mentionsDenied (dropTrailWs (s.dropWhile isWs))
      = mentionsDenied (dropTrailWs (s.dropWhile isWs) ++ w) := by
        rw [mentionsDenied_append_inert (fun c hc => ws_nonword (hws c hc))]
    _ = mentionsDenied (s.dropWhile isWs) := by rw [← hw]
    _ = mentionsDenied (s.takeWhile isWs ++ s.dropWhile isWs) := by
        rw [mentionsDenied_ws_pre (fun c hc => List.mem_takeWhile_imp hc)]
    _ = mentionsDenied s := by rw [List.takeWhile_append_dropWhile]

theorem endsWithSemi_concat : ∀ l : List Char, endsWithSemi (l ++ [';']) = true := by
  intro l
  induction l with
  | nil => rfl
  | cons c cs ih =>
    cases cs with
    | nil => rfl
    | cons d ds => simpa [endsWithSemi] using ih

theorem endsWithSemi_getLast : ∀ {l : List Char}, endsWithSemi l = true →
    l.getLast? = some ';' := by
  intro l
  induction l with
  | nil => intro h; simp [endsWithSemi] at h
  | cons c cs ih =>
    intro h
    cases cs with
    | nil =>
      simp only [endsWithSemi, beq_iff_eq] at h
      simp [h]
    | cons d ds =>
      rw [List.getLast?_cons_cons]
      exact ih h

theorem mentionsDenied_cleanQuery (s : List Char) :
    mentionsDenied (cleanQuery s) = mentionsDenied s := by
  unfold cleanQuery
  by_cases h : endsWithSemi (stripChars s) = true
  · simp only [h, if_true, mentionsDenied_stripChars]
  · simp only [Bool.not_eq_true] at h
    simp only [h, Bool.false_eq_true, if_false]
    rw [mentionsDenied_append_inert (t := [';']) (by simpa using semi_nonword),
      mentionsDenied_stripChars]

/-! ## Validator lemmas -/

theorem mentionsDenied_false_iff {q : List Char} :
    mentionsDenied q = false ↔
      destructive_patterns.find? (fun p => patSearch p q) = none := by
  rw [List.find?_eq_none]
  unfold mentionsDenied
  rw [← Bool.not_eq_true, List.any_eq_true]
  push_neg
  constructor
  · intro h p hp
    simpa using h p hp
  · intro h p hp
    simpa using h p hp

theorem validate_ok_shape {q r : List Char}
    (h : validate_cypher_query q = .ok r) :
    r = cleanQuery q ∧ mentionsDenied q = false := by
  unfold validate_cypher_query at h
  cases hf : destructive_patterns.find? (fun p => patSearch p q) with
  | some p => rw [hf] at h; simp at h
  | none =>
    rw [hf] at h
    simp only [Except.ok.injEq] at h
    exact ⟨h.symm, mentionsDenied_false_iff.mpr hf⟩

theorem cleanQuery_endsWithSemi (s : List Char) : endsWithSemi (cleanQuery s) = true := by
  unfold cleanQuery
  by_cases h : endsWithSemi (stripChars s) = true
  · simpa [h]
  · simp only [Bool.not_eq_true] at h
    simp only [h, Bool.false_eq_true, if_false]
    exact endsWithSemi_concat _

theorem cleanQuery_eq_self {u : List Char} (h1 : stripChars u = u)
    (h2 : endsWithSemi u = true) : cleanQuery u = u := by
  unfold cleanQuery
  rw [h1, h2]
  simp

theorem cleanQuery_stripped (s : List Char) : stripChars (cleanQuery s) = cleanQuery s := by
  unfold cleanQuery
  by_cases h : endsWithSemi (stripChars s) = true
  · simpa [h] using stripChars_idem s
  · simp only [Bool.not_eq_true] at h
    simp only [h, Bool.false_eq_true, if_false]
    apply stripChars_eq_self
    · intro c hc
      cases hs : stripChars s with
      | nil =>
        rw [hs] at hc
        simp at hc
        rw [← hc]
        decide
      | cons d ds =>
        rw [hs] at hc
        rw [List.head?_append_of_ne_nil _ (by simp)] at hc
        exact stripChars_head_not_ws (hs ▸ hc)
    · intro c hc
      rw [List.getLast?_concat] at hc
      simp at hc
      rw [← hc]
      decide

/-! ## Claim C2 -/

/-- C2.  For every input string containing a denylisted mutating-operation
keyword (DROP, DELETE, CREATE, SET, REMOVE, MERGE, DETACH DELETE — any
letter case, word-boundary matched), `validate_cypher_query` fails with
`UnsafeQueryError`; for every input containing none of them it succeeds
and its result ends with the statement delimiter `';'`. -/
theorem validator_denylist_spec (s : List Char) :
    if mentionsDenied s = true then
      ∃ m, validate_cypher_query s = .error (.UnsafeQueryError m)
    else
      ∃ r, validate_cypher_query s = .ok r ∧ endsWithSemi r = true := by
  by_cases h : mentionsDenied s = true
  · rw [if_pos h]
    unfold validate_cypher_query
    cases hf : destructive_patterns.find? (fun p => patSearch p s) with
    | some p => exact ⟨blockedText p, rfl⟩
    | none =>
      rw [← Bool.not_eq_false] at h
      exact absurd (mentionsDenied_false_iff.mpr hf) h
  · rw [if_neg h]
    simp only [Bool.not_eq_true] at h
    unfold validate_cypher_query
    rw [mentionsDenied_false_iff.mp h]
    exact ⟨cleanQuery s, rfl, cleanQuery_endsWithSemi s⟩

/-! ## Claim C9 -/

/-- C9.  Validator idempotence: a string that is delimiter-terminated,
free of denylisted keywords and has no surrounding whitespace is returned
unchanged; and whenever `validate_cypher_query` succeeds, validating its
output succeeds and returns that output unchanged. -/
theorem validator_idempotent :
    (∀ s : List Char, stripChars s = s → endsWithSemi s = true →
      mentionsDenied s = false → validate_cypher_query s = .ok s) ∧
    (∀ s r : List Char, validate_cypher_query s = .ok r →
      validate_cypher_query r = .ok r) := by
  constructor
  · intro s hstrip hsemi hden
    unfold validate_cypher_query
    rw [mentionsDenied_false_iff.mp hden]
    show Except.ok (cleanQuery s) = Except.ok s
    rw [cleanQuery_eq_self hstrip hsemi]
  · intro s r h
    obtain ⟨rfl, hden⟩ := validate_ok_shape h
    have hden' : mentionsDenied (cleanQuery s) = false := by
      rw [mentionsDenied_cleanQuery]; exact hden
    unfold validate_cypher_query
    rw [mentionsDenied_false_iff.mp hden']
    show Except.ok (cleanQuery (cleanQuery s)) = Except.ok (cleanQuery s)
    rw [cleanQuery_eq_self (cleanQuery_stripped s) (cleanQuery_endsWithSemi s)]

/-- Witness for C9 at concrete inputs. -/
theorem validator_idempotent_witness :
    validate_cypher_query ("MATCH (n) RETURN n;").data = .ok ("MATCH (n) RETURN n;").data ∧
    validate_cypher_query ("  MATCH (b) RETURN b ").data = .ok ("MATCH (b) RETURN b;").data ∧
    validate_cypher_query ("MATCH (b) RETURN b;").data = .ok ("MATCH (b) RETURN b;").data := by
  refine ⟨validator_idempotent.1 _ (by decide) (by decide) (by decide), ?_, ?_⟩
  · decide
  · exact validator_idempotent.2 ("  MATCH (b) RETURN b ").data
      ("MATCH (b) RETURN b;").data (by decide)

/-! ## Retry-controller lemmas

The step lemmas below are stated over states written with the anonymous
constructor `⟨attempt, prev, cypher, genIdx, repairIdx, executed⟩`, which
keeps every intermediate state of a run in normal form.
-/

theorem runSession_succ (o : Oracle) (ques : List Char) (fuel : Nat) (st : SessionState) :
    runSession o ques (fuel + 1) st =
      (match sessionStep o ques st with
       | .inl r => r
       | .inr st' => runSession o ques fuel st') := rfl

theorem runSession_inl {o : Oracle} {ques : List Char} {fuel : Nat} {st : SessionState}
    {r : Outcome × SessionState} (h : sessionStep o ques st = .inl r) :
    runSession o ques (fuel + 1) st = r := by
  rw [runSession_succ, h]

theorem runSession_inr {o : Oracle} {ques : List Char} {fuel : Nat} {st st' : SessionState}
    (h : sessionStep o ques st = .inr st') :
    runSession o ques (fuel + 1) st = runSession o ques fuel st' := by
  rw [runSession_succ, h]

theorem handleFailure_mid_some {o : Oracle} {a gi ri : Nat} {pv : List AttemptRecord}
    {ex : List (List Char)} {c e : List Char} (ha : a < 3) :
    handleFailure o ⟨a, pv, some c, gi, ri, ex⟩ e =
      .inr ⟨a + 1, pv ++ [⟨a, c, e⟩],
        some ((improve_cypher_with_context o ri c e).getD c), gi, ri + 1, ex⟩ := by
  unfold handleFailure
  rw [if_pos (by simpa [maxAttempts] using ha)]

theorem handleFailure_mid_none {o : Oracle} {a gi ri : Nat} {pv : List AttemptRecord}
    {ex : List (List Char)} {e : List Char} (ha : a < 3) :
    handleFailure o ⟨a, pv, none, gi, ri, ex⟩ e =
      .inl (.noInitialQuery e, ⟨a, pv, none, gi, ri, ex⟩) := by
  unfold handleFailure
  rw [if_pos (by simpa [maxAttempts] using ha)]

theorem handleFailure_last {o : Oracle} {a gi ri : Nat} {pv : List AttemptRecord}
    {ex : List (List Char)} {cy : Option (List Char)} {e : List Char} (ha : ¬ a < 3) :
    handleFailure o ⟨a, pv, cy, gi, ri, ex⟩ e =
      .inl (.exhausted a e cy, ⟨a, pv, cy, gi, ri, ex⟩) := by
  unfold handleFailure
  rw [if_neg (by simpa [maxAttempts] using ha)]

theorem sessionStep_gen_err {o : Oracle} {ques : List Char} {a gi ri : Nat}
    {pv : List AttemptRecord} {ex : List (List Char)} {cy : Option (List Char)}
    {e : List Char} (ha : a ≤ 3)
    (hg : generate_enhanced_cypher o gi ques (serializePrev pv) = .error e) :
    sessionStep o ques ⟨a, pv, cy, gi, ri, ex⟩ =
      handleFailure o ⟨a, pv, cy, gi + 1, ri, ex⟩ e := by
  unfold sessionStep
  rw [if_neg (by simp [maxAttempts]; omega), hg]

theorem sessionStep_exec_ok {o : Oracle} {ques : List Char} {a gi ri : Nat}
    {pv : List AttemptRecord} {ex : List (List Char)} {cy : Option (List Char)}
    {q : List Char} {rows : List Row} (ha : a ≤ 3)
    (hg : generate_enhanced_cypher o gi ques (serializePrev pv) = .ok q)
    (he : o.execOutcomes ex.length = .ok rows) :
    sessionStep o ques ⟨a, pv, cy, gi, ri, ex⟩ =
      .inl (.success q rows, ⟨a, pv, some q, gi + 1, ri, ex ++ [q]⟩) := by
  unfold sessionStep
  rw [if_neg (by simp [maxAttempts]; omega), hg, he]

theorem sessionStep_exec_err {o : Oracle} {ques : List Char} {a gi ri : Nat}
    {pv : List AttemptRecord} {ex : List (List Char)} {cy : Option (List Char)}
    {q e : List Char} (ha : a ≤ 3)
    (hg : generate_enhanced_cypher o gi ques (serializePrev pv) = .ok q)
    (he : o.execOutcomes ex.length = .error e) :
    sessionStep o ques ⟨a, pv, cy, gi, ri, ex⟩ =
      handleFailure o ⟨a, pv, some q, gi + 1, ri, ex ++ [q]⟩ e := by
  unfold sessionStep
  rw [if_neg (by simp [maxAttempts]; omega), hg, he]

/-- A full session in which synthesis succeeds three times and every
execution fails.  The final state is independent of the repair outcomes:
each loop iteration re-synthesizes, so the repaired candidate (when any)
is overwritten before it could be executed. -/
theorem run_three_failures {o : Oracle} {ques q0 q1 q2 e0 e1 e2 : List Char}
    (hq0 : generate_enhanced_cypher o 0 ques (serializePrev []) = .ok q0)
    (he0 : o.execOutcomes 0 = .error e0)
    (hq1 : generate_enhanced_cypher o 1 ques (serializePrev [⟨1, q0, e0⟩]) = .ok q1)
    (he1 : o.execOutcomes 1 = .error e1)
    (hq2 : generate_enhanced_cypher o 2 ques
      (serializePrev [⟨1, q0, e0⟩, ⟨2, q1, e1⟩]) = .ok q2)
    (he2 : o.execOutcomes 2 = .error e2) :
    run_question o ques =
      (.exhausted 3 e2 (some q2),
       ⟨3, [⟨1, q0, e0⟩, ⟨2, q1, e1⟩], some q2, 3, 2, [q0, q1, q2]⟩) := by
  have he0' : o.execOutcomes ([] : List (List Char)).length = .error e0 := he0
  have he1' : o.execOutcomes [q0].length = .error e1 := he1
  have he2' : o.execOutcomes [q0, q1].length = .error e2 := he2
  calc run_question o ques
      = runSession o ques 3
          ⟨2, [⟨1, q0, e0⟩],
            some ((improve_cypher_with_context o 0 q0 e0).getD q0), 1, 1, [q0]⟩ := by
        apply runSession_inr
        exact (sessionStep_exec_err (by omega) hq0 he0').trans
          (handleFailure_mid_some (by omega))
    _ = runSession o ques 2
          ⟨3, [⟨1, q0, e0⟩, ⟨2, q1, e1⟩],
            some ((improve_cypher_with_context o 1 q1 e1).getD q1), 2, 2, [q0, q1]⟩ := by
        apply runSession_inr
        exact (sessionStep_exec_err (by omega) hq1 he1').trans
          (handleFailure_mid_some (by omega))
    _ = (.exhausted 3 e2 (some q2),
          ⟨3, [⟨1, q0, e0⟩, ⟨2, q1, e1⟩], some q2, 3, 2, [q0, q1, q2]⟩) := by
        apply runSession_inl
        exact (sessionStep_exec_err (by omega) hq2 he2').trans
          (handleFailure_last (by omega))

/-! ## Origin of executed queries -/

theorem handleFailure_executed (o : Oracle) (st : SessionState) (e : List Char) :
    (resState (handleFailure o st e)).executed = st.executed := by
  unfold handleFailure
  by_cases ha : st.attempt < maxAttempts
  · rw [if_pos ha]
    cases st.cypher with
    | some c => rfl
    | none => rfl
  · rw [if_neg ha]
    rfl

theorem sessionStep_executed (o : Oracle) (ques : List Char) (st : SessionState) :
    ∀ q ∈ (resState (sessionStep o ques st)).executed,
      q ∈ st.executed ∨ ∃ i ptxt, generate_enhanced_cypher o i ques ptxt = .ok q := by
  unfold sessionStep
  by_cases ha : st.attempt > maxAttempts
  · rw [if_pos ha]
    intro q hq
    exact .inl hq
  · rw [if_neg ha]
    cases hg : generate_enhanced_cypher o st.genIdx ques (serializePrev st.prev) with
    | error e =>
      intro q hq
      rw [handleFailure_executed] at hq
      exact .inl hq
    | ok q' =>
      cases he : o.execOutcomes st.executed.length with
      | ok rows =>
        intro q hq
        have hq' : q ∈ st.executed ++ [q'] := hq
        rcases List.mem_append.mp hq' with h1 | h2
        · exact .inl h1
        · refine .inr ⟨st.genIdx, serializePrev st.prev, ?_⟩
          rw [List.mem_singleton.mp h2]
          exact hg
      | error e =>
        intro q hq
        rw [handleFailure_executed] at hq
        have hq' : q ∈ st.executed ++ [q'] := hq
        rcases List.mem_append.mp hq' with h1 | h2
        · exact .inl h1
        · refine .inr ⟨st.genIdx, serializePrev st.prev, ?_⟩
          rw [List.mem_singleton.mp h2]
          exact hg

theorem runSession_executed_inv (o : Oracle) (ques : List Char) :
    ∀ (fuel : Nat) (st : SessionState),
    ∀ q ∈ (runSession o ques fuel st).2.executed,
      q ∈ st.executed ∨ ∃ i ptxt, generate_enhanced_cypher o i ques ptxt = .ok q := by
  intro fuel
  induction fuel with
  | zero => intro st q hq; exact .inl hq
  | succ f ih =>
    intro st q hq
    rw [runSession_succ] at hq
    cases hs : sessionStep o ques st with
    | inl r =>
      rw [hs] at hq
      exact sessionStep_executed o ques st q (by rw [hs]; exact hq)
    | inr st' =>
      rw [hs] at hq
      rcases ih st' q hq with h1 | h2
      · exact sessionStep_executed o ques st q (by rw [hs]; exact h1)
      · exact .inr h2

theorem generate_ok_validated {o : Oracle} {i : Nat} {ques q : List Char}
    {ptxt : Option (List Char)} (h : generate_enhanced_cypher o i ques ptxt = .ok q) :
    ∃ raw, validate_cypher_query raw = .ok q := by
  unfold generate_enhanced_cypher at h
  cases hr : o.genResponses i (basePrompt ques o.schema ptxt) with
  | error e =>
    simp only [hr] at h
    exact Except.noConfusion h
  | ok resp =>
    simp only [hr] at h
    cases hx : extract_cypher_from_response resp with
    | error ee =>
      cases ee
      simp only [hx] at h
      exact Except.noConfusion h
    | ok qx =>
      simp only [hx] at h
      cases hv : validate_cypher_query qx with
      | error ve =>
        cases ve
        simp only [hv] at h
        exact Except.noConfusion h
      | ok v =>
        simp only [hv, Except.ok.injEq] at h
        exact ⟨qx, by rw [hv, h]⟩

/-! ## Claim C3 -/

/-- C3.  After three consecutive execution failures (with synthesis
succeeding each time, so each attempt reaches `Executing`), the session
terminates as `ExhaustedFailure` after exactly 3 attempts, and the
execution collaborator has been called exactly 3 times (never a 4th). -/
theorem retry_controller_attempt_bound (o : Oracle) (ques : List Char)
    (hg : ∀ i prevTxt, ∃ q, generate_enhanced_cypher o i ques prevTxt = .ok q)
    (he : ∀ k, k < 3 → ∃ e, o.execOutcomes k = .error e) :
    (∃ e lq, (run_question o ques).1 = .exhausted 3 e lq) ∧
      (run_question o ques).2.executed.length = 3 := by
  obtain ⟨q0, hq0⟩ := hg 0 (serializePrev [])
  obtain ⟨e0, he0⟩ := he 0 (by omega)
  obtain ⟨q1, hq1⟩ := hg 1 (serializePrev [⟨1, q0, e0⟩])
  obtain ⟨e1, he1⟩ := he 1 (by omega)
  obtain ⟨q2, hq2⟩ := hg 2 (serializePrev [⟨1, q0, e0⟩, ⟨2, q1, e1⟩])
  obtain ⟨e2, he2⟩ := he 2 (by omega)
  rw [run_three_failures hq0 he0 hq1 he1 hq2 he2]
  exact ⟨⟨e2, some q2, rfl⟩, rfl⟩

/-- Witness for C3 at a concrete oracle. -/
theorem retry_controller_attempt_bound_witness :
    (∃ e lq, (run_question oracleConst ("q").data).1 = .exhausted 3 e lq) ∧
      (run_question oracleConst ("q").data).2.executed.length = 3 :=
  retry_controller_attempt_bound oracleConst ("q").data
    (fun _ _ => ⟨("MATCH (n) RETURN;").data, rfl⟩)
    (fun _ _ => ⟨("db down").data, rfl⟩)

/-! ## Claim C4 (corrected) -/

/-- C4 counterexample.  Three consecutive execution failures with the
Repair Engine returning null each time: the session does end in
`ExhaustedFailure`, but the attempt-record sequence has length 2, not 3 —
the final attempt's failure is never appended. -/
theorem attempt_records_length_cx :
    (∀ j c e, improve_cypher_with_context oracleNullRepair j c e = none) ∧
    (∃ e lq, (run_question oracleNullRepair ("q").data).1 = .exhausted 3 e lq) ∧
    (run_question oracleNullRepair ("q").data).2.prev.length = 2 ∧
    (run_question oracleNullRepair ("q").data).2.prev.length ≠ 3 := by
  refine ⟨fun j c e => rfl,
    ⟨("db rejected the statement").data, some (("MATCH (g2) RETURN;").data), by decide⟩,
    by decide, by decide⟩

/-- C4 amended.  A failure appends one AttemptRecord(attempt, query, error)
only on non-final attempts (with a bound candidate); after three
consecutive `ExecutionError`s with the Repair Engine returning null each
time, the session ends in `ExhaustedFailure` with an AttemptRecord
sequence of length exactly 2, holding the first two attempts' records. -/
theorem attempt_records_two_of_three_failures (o : Oracle) (ques : List Char)
    (q0 q1 q2 e0 e1 e2 : List Char)
    (hq0 : generate_enhanced_cypher o 0 ques (serializePrev []) = .ok q0)
    (he0 : o.execOutcomes 0 = .error e0)
    (hq1 : generate_enhanced_cypher o 1 ques (serializePrev [⟨1, q0, e0⟩]) = .ok q1)
    (he1 : o.execOutcomes 1 = .error e1)
    (hq2 : generate_enhanced_cypher o 2 ques
      (serializePrev [⟨1, q0, e0⟩, ⟨2, q1, e1⟩]) = .ok q2)
    (he2 : o.execOutcomes 2 = .error e2)
    (hr : ∀ j c e, improve_cypher_with_context o j c e = none) :
    (run_question o ques).1 = .exhausted 3 e2 (some q2) ∧
    (run_question o ques).2.prev = [⟨1, q0, e0⟩, ⟨2, q1, e1⟩] ∧
    (run_question o ques).2.prev.length = 2 := by
  rw [run_three_failures hq0 he0 hq1 he1 hq2 he2]
  exact ⟨rfl, rfl, rfl⟩

/-- Witness for the amended C4 at a concrete oracle. -/
theorem attempt_records_two_witness :
    (run_question oracleNullRepair ("q").data).1 =
      .exhausted 3 ("db rejected the statement").data
        (some (("MATCH (g2) RETURN;").data)) ∧
    (run_question oracleNullRepair ("q").data).2.prev =
      [⟨1, ("MATCH (g0) RETURN;").data, ("db rejected the statement").data⟩,
       ⟨2, ("MATCH (g1) RETURN;").data, ("db rejected the statement").data⟩] ∧
    (run_question oracleNullRepair ("q").data).2.prev.length = 2 :=
  attempt_records_two_of_three_failures oracleNullRepair ("q").data
    (("MATCH (g0) RETURN;").data) (("MATCH (g1) RETURN;").data)
    (("MATCH (g2) RETURN;").data)
    (("db rejected the statement").data) (("db rejected the statement").data)
    (("db rejected the statement").data)
    (by decide) (by decide) (by decide) (by decide) (by decide) (by decide)
    (fun _ _ _ => rfl)

/-! ## Claim C7 -/

/-- C7.  A `GenerationError` on the very first attempt, before any
candidate query was ever produced, terminates the session immediately in
the terminal failure state: no attempt record, no repair call, no
execution call, no second synthesis call, and the error is returned as a
terminal outcome rather than propagating. -/
theorem first_attempt_generation_error_terminates (o : Oracle) (ques m : List Char)
    (h : generate_enhanced_cypher o 0 ques (serializePrev []) = .error m) :
    run_question o ques = (.noInitialQuery m, ⟨1, [], none, 1, 0, []⟩) := by
  apply runSession_inl
  exact (sessionStep_gen_err (by omega) h).trans (handleFailure_mid_none (by omega))

/-- Witness for C7 at a concrete oracle. -/
theorem first_attempt_generation_error_witness :
    run_question oracleGenFail ("q").data =
      (.noInitialQuery (genFailMsg ("api down").data), ⟨1, [], none, 1, 0, []⟩) :=
  first_attempt_generation_error_terminates oracleGenFail ("q").data
    (genFailMsg ("api down").data) rfl

/-! ## Claim C1 (corrected) -/

/-- C1 counterexample.  An execution failure on attempt 1 with the Repair
Engine returning a non-null repaired query ("MATCH (r) RETURN;"): the loop
nevertheless re-synthesizes (a second synthesis call is made, final
`genIdx` is 2) and the next candidate actually executed is the
re-synthesized "MATCH (b) RETURN;", not the repaired query, which is never
executed. -/
theorem repair_not_executed_cx :
    improve_cypher_with_context oracleRepairAdopt 0 (("MATCH (a) RETURN;").data)
      (("syntax error near a").data) = some (("MATCH (r) RETURN;").data) ∧
    (run_question oracleRepairAdopt ("q").data).1 =
      .success (("MATCH (b) RETURN;").data) [[((("n").data), (("1").data))]] ∧
    (run_question oracleRepairAdopt ("q").data).2.executed =
      [("MATCH (a) RETURN;").data, ("MATCH (b) RETURN;").data] ∧
    (run_question oracleRepairAdopt ("q").data).2.genIdx = 2 ∧
    ¬ ("MATCH (r) RETURN;").data ∈ (run_question oracleRepairAdopt ("q").data).2.executed := by
  refine ⟨by decide, by decide, by decide, by decide, by decide⟩

/-- C1 amended.  When the Repair Engine returns a non-null ValidatedQuery
after an attempt failure before the ceiling, the controller adopts it as
the current candidate and increments the attempt counter — but its next
state is Generating, not Executing: the following iteration re-invokes the
Synthesizer, and every query ever handed to the execution collaborator is
the output of a synthesis call, never the repaired candidate itself. -/
theorem repair_adoption_then_generating :
    (∀ (o : Oracle) (a gi ri : Nat) (pv : List AttemptRecord) (ex : List (List Char))
        (c e ic : List Char), a < 3 →
      improve_cypher_with_context o ri c e = some ic →
      handleFailure o ⟨a, pv, some c, gi, ri, ex⟩ e =
        .inr ⟨a + 1, pv ++ [⟨a, c, e⟩], some ic, gi, ri + 1, ex⟩) ∧
    (∀ (o : Oracle) (ques : List Char) (fuel : Nat) (st : SessionState) (q : List Char),
      q ∈ (runSession o ques fuel st).2.executed →
      q ∈ st.executed ∨ ∃ i ptxt, generate_enhanced_cypher o i ques ptxt = .ok q) := by
  constructor
  · intro o a gi ri pv ex c e ic ha himp
    rw [handleFailure_mid_some ha, himp]
    rfl
  · intro o ques fuel st q hq
    exact runSession_executed_inv o ques fuel st q hq

/-- Witness for the amended C1 at a concrete oracle and state. -/
theorem repair_adoption_then_generating_witness :
    (handleFailure oracleRepairAdopt
        ⟨1, [], some (("MATCH (a) RETURN;").data), 1, 0, [("MATCH (a) RETURN;").data]⟩
        (("syntax error near a").data) =
      .inr ⟨2, [⟨1, ("MATCH (a) RETURN;").data, ("syntax error near a").data⟩],
        some (("MATCH (r) RETURN;").data), 1, 1, [("MATCH (a) RETURN;").data]⟩) ∧
    (("MATCH (a) RETURN;").data ∈ initState.executed ∨
      ∃ i ptxt, generate_enhanced_cypher oracleRepairAdopt i ("q").data ptxt =
        .ok (("MATCH (a) RETURN;").data)) := by
  constructor
  · exact repair_adoption_then_generating.1 oracleRepairAdopt 1 1 0 []
      [("MATCH (a) RETURN;").data] (("MATCH (a) RETURN;").data)
      (("syntax error near a").data) (("MATCH (r) RETURN;").data) (by omega) (by decide)
  · exact repair_adoption_then_generating.2 oracleRepairAdopt ("q").data 4 initState
      (("MATCH (a) RETURN;").data) (by decide)

/-! ## Claim C5 -/

/-- C5.  Every statement string handed to the graph-execution collaborator
during a session is an output of the Validator: it equals
`validate_cypher_query raw` for some raw candidate, hence contains no
denylisted mutating keyword and ends with the statement delimiter.  There
is no path from candidate production to execution that skips validation. -/
theorem executed_queries_validated (o : Oracle) (ques : List Char) (fuel : Nat)
    (q : List Char) (hq : q ∈ (runSession o ques fuel initState).2.executed) :
    (∃ raw, validate_cypher_query raw = .ok q) ∧
      mentionsDenied q = false ∧ endsWithSemi q = true := by
  rcases runSession_executed_inv o ques fuel initState q hq with h1 | h2
  · exact absurd h1 (by simp [initState])
  · obtain ⟨i, ptxt, hg⟩ := h2
    obtain ⟨raw, hv⟩ := generate_ok_validated hg
    obtain ⟨rfl, hden⟩ := validate_ok_shape hv
    refine ⟨⟨raw, hv⟩, ?_, cleanQuery_endsWithSemi raw⟩
    rw [mentionsDenied_cleanQuery]
    exact hden

/-- Witness for C5 at a concrete oracle and executed query. -/
theorem executed_queries_validated_witness :
    (("MATCH (n) RETURN;").data ∈
      (runSession oracleConst ("q").data 4 initState).2.executed) ∧
    ((∃ raw, validate_cypher_query raw = .ok (("MATCH (n) RETURN;").data)) ∧
      mentionsDenied (("MATCH (n) RETURN;").data) = false ∧
      endsWithSemi (("MATCH (n) RETURN;").data) = true) :=
  ⟨by decide, executed_queries_validated oracleConst ("q").data 4
    (("MATCH (n) RETURN;").data) (by decide)⟩

/-! ## Claim C8 -/

/-- C8.  For every question, query and text-generation collaborator, an
empty result-row sequence makes the Result Interpreter return the fixed
explanatory message with zero calls to the collaborator. -/
theorem empty_results_fixed_message (llm : List Char → Except (List Char) (List Char))
    (question query : List Char) :
    provide_intelligent_answer llm question [] query = (noResultsMessage, 0) := rfl

/-! ## Extractor lemmas -/

theorem hasPre_append : ∀ p u : List Char, hasPre p (p ++ u) = true := by
  intro p
  induction p with
  | nil => intro u; rfl
  | cons c cs ih =>
    intro u
    simp only [List.cons_append, hasPre, beq_self_eq_true, Bool.true_and]
    exact ih u

theorem tryFenceAt_not_bt {c : Char} {u : List Char} (h : c ≠ bt) :
    tryFenceAt (c :: u) = none := by
  have hb : (bt == c) = false := beq_eq_false_iff_ne.mpr (fun hh => h hh.symm)
  unfold tryFenceAt
  rw [if_neg (by simp [fenceMarks, hasPre, hb])]

theorem splitAtFence_clean {Y : List Char} (rest : List Char)
    (hY : ∀ c ∈ Y, c ≠ bt) :
    splitAtFence (Y ++ (fenceMarks ++ rest)) = some (Y, rest) := by
  induction Y with
  | nil =>
    show splitAtFence (bt :: ([bt, bt] ++ rest)) = some ([], rest)
    unfold splitAtFence
    rw [if_pos (show hasPre fenceMarks (bt :: ([bt, bt] ++ rest)) = true from
      hasPre_append fenceMarks rest)]
    rfl
  | cons c cs ih =>
    have hb : (bt == c) = false :=
      beq_eq_false_iff_ne.mpr (fun hh => hY c (by simp) hh.symm)
    show splitAtFence (c :: (cs ++ (fenceMarks ++ rest))) = some (c :: cs, rest)
    unfold splitAtFence
    rw [if_neg (by simp [fenceMarks, hasPre, hb])]
    rw [ih (fun d hd => hY d (by simp [hd]))]

theorem matchCI_head_mismatch {a b : Char} {as bs : List Char} (h : ciEq a b = false) :
    matchCI (a :: as) (b :: bs) = none := by
  simp [matchCI, h]

theorem matchCI_bt_break {kw X u : List Char}
    (hkw : ∀ c ∈ kw, ciEq c bt = false)
    (hX : (matchCI kw X).isSome = false) : matchCI kw (X ++ bt :: u) = none := by
  induction kw generalizing X with
  | nil => simp [matchCI] at hX
  | cons k ks ih =>
    cases X with
    | nil =>
      apply matchCI_head_mismatch
      exact hkw k (by simp)
    | cons x xs =>
      rw [List.cons_append]
      by_cases hc : ciEq k x = true
      · rw [show matchCI (k :: ks) (x :: (xs ++ bt :: u)) = matchCI ks (xs ++ bt :: u) from
          by simp [matchCI, hc]]
        apply ih (fun c hc2 => hkw c (by simp [hc2]))
        rw [show matchCI (k :: ks) (x :: xs) = matchCI ks xs from by simp [matchCI, hc]] at hX
        exact hX
      · simp only [Bool.not_eq_true] at hc
        exact matchCI_head_mismatch hc

theorem tagStrip_split {T X rest : List Char} (hT : TagOk T X) :
    tagStrip (T ++ (X ++ (fenceMarks ++ rest))) = X ++ (fenceMarks ++ rest) := by
  rcases hT with rfl | rfl | ⟨rfl, hcy, hne⟩
  · unfold tagStrip
    rw [show tagCypher ++ (X ++ (fenceMarks ++ rest)) =
        tagCypher ++ (X ++ (fenceMarks ++ rest)) from rfl,
      matchCI_eqList (by decide) (X ++ (fenceMarks ++ rest))]
  · unfold tagStrip
    have h1 : matchCI tagCypher (tagNeo4j ++ (X ++ (fenceMarks ++ rest))) = none :=
      matchCI_head_mismatch (by decide)
    have h2 : matchCI tagNeo4j (tagNeo4j ++ (X ++ (fenceMarks ++ rest))) =
        some (X ++ (fenceMarks ++ rest)) :=
      matchCI_eqList (by decide) (X ++ (fenceMarks ++ rest))
    rw [h1, h2]
  · unfold tagStrip
    have h1 : matchCI tagCypher (X ++ (fenceMarks ++ rest)) = none :=
      matchCI_bt_break (by decide) hcy
    have h2 : matchCI tagNeo4j (X ++ (fenceMarks ++ rest)) = none :=
      matchCI_bt_break (by decide) hne
    rw [List.nil_append, h1, h2]

theorem dropWhile_ws_fence {X rest : List Char} :
    (X ++ (fenceMarks ++ rest)).dropWhile isWs =
      (X.dropWhile isWs) ++ (fenceMarks ++ rest) := by
  cases hx : X.dropWhile isWs with
  | nil =>
    rw [dropWhile_nil_eq _ hx, List.nil_append]
    show (bt :: ([bt, bt] ++ rest)).dropWhile isWs = bt :: ([bt, bt] ++ rest)
    rw [List.dropWhile_cons, if_neg (by decide)]
  | cons d ds =>
    rw [dropWhile_cons_eq hx]

theorem tryFenceAt_split {T X rest : List Char} (hX : ∀ c ∈ X, c ≠ bt)
    (hT : TagOk T X) :
    tryFenceAt (fenceMarks ++ (T ++ (X ++ (fenceMarks ++ rest)))) =
      some (X.dropWhile isWs) := by
  have hsplit : splitAtFence ((X.dropWhile isWs) ++ (fenceMarks ++ rest)) =
      some (X.dropWhile isWs, rest) :=
    splitAtFence_clean rest (fun c hc => hX c (dropWhile_sublist_mem hc))
  have hfence : hasPre fenceMarks (fenceMarks ++ (T ++ (X ++ (fenceMarks ++ rest)))) = true :=
    hasPre_append fenceMarks (T ++ (X ++ (fenceMarks ++ rest)))
  have hdrop : (fenceMarks ++ (T ++ (X ++ (fenceMarks ++ rest)))).drop 3 =
      T ++ (X ++ (fenceMarks ++ rest)) := rfl
  unfold tryFenceAt
  rw [if_pos hfence, hdrop, tagStrip_split hT, dropWhile_ws_fence, hsplit]

theorem fenceScan_pre {pre z : List Char} {g : List Char}
    (hpre : ∀ c ∈ pre, c ≠ bt) (hz : tryFenceAt z = some g) (hzbt : z ≠ [])
    (hzhead : z.head? = some bt) :
    fenceScan (pre ++ z) = some g := by
  induction pre with
  | nil =>
    cases z with
    | nil => exact absurd rfl hzbt
    | cons c cs =>
      show fenceScan (c :: cs) = some g
      unfold fenceScan
      rw [hz]
  | cons c cs ih =>
    show fenceScan (c :: (cs ++ z)) = some g
    unfold fenceScan
    rw [tryFenceAt_not_bt (hpre c (by simp))]
    exact ih (fun d hd => hpre d (by simp [hd]))

/-- Leftmost-match of the fenced-block pattern on a response of the shape
`pre ++ fence ++ tag ++ X ++ fence ++ rest` with a backtick-free prefix
and body. -/
theorem fenceScan_split {pre T X rest : List Char}
    (hpre : ∀ c ∈ pre, c ≠ bt) (hX : ∀ c ∈ X, c ≠ bt) (hT : TagOk T X) :
    fenceScan (pre ++ (fenceMarks ++ (T ++ (X ++ (fenceMarks ++ rest))))) =
      some (X.dropWhile isWs) :=
  fenceScan_pre hpre (tryFenceAt_split hX hT) (by simp [fenceMarks]) rfl

theorem fenceScan_none_no_bt {s : List Char} (h : ∀ c ∈ s, c ≠ bt) :
    fenceScan s = none := by
  induction s with
  | nil => rfl
  | cons c cs ih =>
    unfold fenceScan
    rw [tryFenceAt_not_bt (h c (by simp))]
    exact ih (fun d hd => h d (by simp [hd]))

theorem dropWhile_isWs_idem (l : List Char) :
    (l.dropWhile isWs).dropWhile isWs = l.dropWhile isWs :=
  dropWhile_eq_self_of_head (fun _ hc => dropWhile_head_not hc)

theorem stripChars_dropWhile (X : List Char) :
    stripChars (X.dropWhile isWs) = stripChars X := by
  unfold stripChars
  rw [dropWhile_isWs_idem]

theorem matchCI_some_nil_length : ∀ {kw T : List Char},
    matchCI kw T = some [] → T.length = kw.length := by
  intro kw
  induction kw with
  | nil =>
    intro T h
    cases T with
    | nil => rfl
    | cons t ts => simp [matchCI] at h
  | cons k ks ih =>
    intro T h
    cases T with
    | nil => simp [matchCI] at h
    | cons t ts =>
      simp only [matchCI] at h
      by_cases hc : ciEq k t = true
      · rw [if_pos hc] at h
        simp [ih h]
      · rw [if_neg hc] at h
        cases h

theorem matchCI_nonempty_head {k : Char} {ks R : List Char}
    (h : matchCI (k :: ks) R = some []) :
    ∃ r R', R = r :: R' ∧ ciEq k r = true := by
  cases R with
  | nil => simp [matchCI] at h
  | cons r R' =>
    simp only [matchCI] at h
    by_cases hc : ciEq k r = true
    · exact ⟨r, R', rfl, hc⟩
    · rw [if_neg hc] at h
      cases h

theorem ciEq_R_not_nl {r : Char} (h : ciEq 'R' r = true) : (r == '\n') = false := by
  rcases eq_or_ne r '\n' with rfl | hne
  · revert h
    decide
  · exact beq_eq_false_iff_ne.mpr hne

theorem optBeq_some_some (a b : Char) : (some a == some b) = (a == b) := rfl

theorem scanTerm_span {R : List Char} (post : List Char)
    (hR : matchCI kwRETURN R = some []) : ∀ mid : List Char,
    (∀ i, i < mid.length →
      (matchCI kwRETURN (mid.drop i ++ (R ++ post))).isSome = false) →
    (∀ c ∈ mid, c ≠ ';') → hasBlankLine mid = false →
    scanTerm (mid ++ (R ++ post)) = mid ++ R := by
  intro mid
  induction mid with
  | nil =>
    intro _ _ _
    cases R with
    | nil => simp [kwRETURN, matchCI] at hR
    | cons r R' =>
      have hmm : matchCI kwRETURN ((r :: R') ++ post) = some post := matchCI_eqList hR post
      have hlen : (r :: R').length = 6 := by
        simpa [kwRETURN] using matchCI_some_nil_length hR
      show scanTerm (r :: (R' ++ post)) = r :: R'
      unfold scanTerm
      rw [if_pos (by rw [show matchCI kwRETURN (r :: (R' ++ post)) = some post from hmm]; rfl)]
      rw [show (r :: (R' ++ post)) = (r :: R') ++ post from rfl, ← hlen, List.take_left]
  | cons c mid' ih =>
    intro hret hsemi hnn
    have h0 : (matchCI kwRETURN (c :: (mid' ++ (R ++ post)))).isSome = false := by
      simpa using hret 0 (by simp)
    have hcsemi : (c == ';') = false :=
      beq_eq_false_iff_ne.mpr (hsemi c (by simp))
    have hbl : ((c == '\n') && ((mid' ++ (R ++ post)).head? == some '\n')) = false := by
      cases mid' with
      | nil =>
        cases R with
        | nil => simp [kwRETURN, matchCI] at hR
        | cons r R' =>
          obtain ⟨r2, R2, hRR, hcr⟩ := matchCI_nonempty_head hR
          have hr2 : r = r2 := by injection hRR
          have hrnl : (r == '\n') = false := by
            rw [hr2]
            exact ciEq_R_not_nl hcr
          show ((c == '\n') && (((r :: R') ++ post).head? == some '\n')) = false
          rw [show ((r :: R') ++ post).head? = some r from rfl, optBeq_some_some, hrnl,
            Bool.and_false]
      | cons d mid'' =>
        have hnd : ((c == '\n') && (d == '\n')) = false :=
          (Bool.or_eq_false_iff.mp
            (show (((c == '\n') && (d == '\n')) || hasBlankLine (d :: mid'')) = false
              from hnn)).1
        show ((c == '\n') && (((d :: mid'') ++ (R ++ post)).head? == some '\n')) = false
        rw [show ((d :: mid'') ++ (R ++ post)).head? = some d from rfl, optBeq_some_some]
        exact hnd
    have hnn2 : hasBlankLine mid' = false := by
      cases mid' with
      | nil => rfl
      | cons d mid'' =>
        exact (Bool.or_eq_false_iff.mp
          (show (((c == '\n') && (d == '\n')) || hasBlankLine (d :: mid'')) = false
            from hnn)).2
    show scanTerm (c :: (mid' ++ (R ++ post))) = c :: (mid' ++ R)
    unfold scanTerm
    rw [if_neg (by simp [h0]), if_neg (by simp [hcsemi]), if_neg (by rw [hbl]; simp)]
    rw [ih (fun i hi => by simpa using hret (i + 1) (by simpa using hi))
      (fun d hd => hsemi d (by simp [hd])) hnn2]

theorem matchScan_span {M mid R post : List Char}
    (hM : matchCI kwMATCH M = some [])
    (hR : matchCI kwRETURN R = some [])
    (hret : ∀ i, i < mid.length →
      (matchCI kwRETURN (mid.drop i ++ (R ++ post))).isSome = false)
    (hsemi : ∀ c ∈ mid, c ≠ ';') (hnn : hasBlankLine mid = false) :
    ∀ pre : List Char,
    (∀ i, i < pre.length →
      (matchCI kwMATCH (pre.drop i ++ (M ++ (mid ++ (R ++ post))))).isSome = false) →
    matchScan (pre ++ (M ++ (mid ++ (R ++ post)))) = some (M ++ (mid ++ R)) := by
  intro pre
  induction pre with
  | nil =>
    intro _
    cases M with
    | nil => simp [kwMATCH, matchCI] at hM
    | cons m M' =>
      have hmm : matchCI kwMATCH ((m :: M') ++ (mid ++ (R ++ post))) =
          some (mid ++ (R ++ post)) := matchCI_eqList hM _
      have hlen : (m :: M').length = 5 := by
        simpa [kwMATCH] using matchCI_some_nil_length hM
      show matchScan (m :: (M' ++ (mid ++ (R ++ post)))) = some ((m :: M') ++ (mid ++ R))
      unfold matchScan
      rw [if_pos (by
        rw [show matchCI kwMATCH (m :: (M' ++ (mid ++ (R ++ post)))) =
          some (mid ++ (R ++ post)) from hmm]; rfl)]
      rw [show (m :: (M' ++ (mid ++ (R ++ post)))) = (m :: M') ++ (mid ++ (R ++ post))
        from rfl]
      rw [← hlen, List.take_left, List.drop_left]
      rw [scanTerm_span post hR mid hret hsemi hnn]
  | cons c pre' ih =>
    intro hpre
    have h0 : (matchCI kwMATCH (c :: (pre' ++ (M ++ (mid ++ (R ++ post)))))).isSome =
        false := by
      simpa using hpre 0 (by simp)
    show matchScan (c :: (pre' ++ (M ++ (mid ++ (R ++ post))))) = some (M ++ (mid ++ R))
    unfold matchScan
    rw [if_neg (by simp [h0])]
    exact ih (fun i hi => by simpa using hpre (i + 1) (by simpa using hi))

/-- The fenced-block half of the Extractor round trip: the pattern fires
on the first fence pair and returns the trimmed block body. -/
theorem extract_fenced {pre T X rest : List Char}
    (hpre : ∀ c ∈ pre, c ≠ bt) (hX : ∀ c ∈ X, c ≠ bt) (hT : TagOk T X) :
    extract_cypher_from_response
      (pre ++ (fenceMarks ++ (T ++ (X ++ (fenceMarks ++ rest))))) =
      .ok (stripChars X) := by
  unfold extract_cypher_from_response
  rw [fenceScan_split hpre hX hT]
  show Except.ok (stripChars (X.dropWhile isWs)) = Except.ok (stripChars X)
  rw [stripChars_dropWhile]

/-- The fallback half of the Extractor round trip: with no backtick in the
response, the span from the first case-insensitive match-keyword through
the first terminator (here the return-keyword) is returned trimmed. -/
theorem extract_match_span {pre M mid R post : List Char}
    (hbt : ∀ c ∈ pre ++ (M ++ (mid ++ (R ++ post))), c ≠ bt)
    (hM : matchCI kwMATCH M = some []) (hR : matchCI kwRETURN R = some [])
    (hpre : ∀ i, i < pre.length →
      (matchCI kwMATCH (pre.drop i ++ (M ++ (mid ++ (R ++ post))))).isSome = false)
    (hret : ∀ i, i < mid.length →
      (matchCI kwRETURN (mid.drop i ++ (R ++ post))).isSome = false)
    (hsemi : ∀ c ∈ mid, c ≠ ';') (hnn : hasBlankLine mid = false) :
    extract_cypher_from_response (pre ++ (M ++ (mid ++ (R ++ post)))) =
      .ok (stripChars (M ++ (mid ++ R))) := by
  unfold extract_cypher_from_response
  rw [fenceScan_none_no_bt hbt, matchScan_span hM hR hret hsemi hnn pre hpre]

/-! ## Claim C6 (corrected) -/

/-- C6 counterexample.  `respTwoBlocks` wraps the query text `wrappedX` in
a (cypher-tagged) fenced code block, yet `extract` does not return
`wrappedX` trimmed: it returns the contents of the first fenced region,
which belong to a different block. -/
theorem extractor_first_block_cx :
    (∃ pre post, respTwoBlocks =
      pre ++ (fenceMarks ++ (tagCypher ++ (wrappedX ++ (fenceMarks ++ post))))) ∧
    extract_cypher_from_response respTwoBlocks = .ok (("sql\nSELECT 1").data) ∧
    ("sql\nSELECT 1").data ≠ stripChars wrappedX := by
  refine ⟨⟨fenceMarks ++ ("sql\nSELECT 1\n").data ++ fenceMarks ++ (" and ").data, [],
    by decide⟩, by decide, by decide⟩

/-- C6 amended.  Extractor round-trip, restricted to the regions the
pattern actually selects: (1) for a response
`pre ++ fence ++ tag ++ X ++ fence ++ rest` whose prefix and body are
backtick-free, with the tag either `cypher`, `neo4j` or absent (and `X`
not beginning with a tag word when absent), extract returns exactly
`X` trimmed — the FIRST fenced region, whatever `rest` holds; (2) for a
backtick-free response containing a match-keyword-through-return-keyword
span — with no earlier match keyword, and no terminator (return keyword,
`';'`, blank line) inside — extract returns exactly that span, trimmed
(the span ends at the return keyword itself, not after its items). -/
theorem extractor_roundtrip_amended :
    (∀ pre T X rest : List Char, (∀ c ∈ pre, c ≠ bt) → (∀ c ∈ X, c ≠ bt) → TagOk T X →
      extract_cypher_from_response
        (pre ++ (fenceMarks ++ (T ++ (X ++ (fenceMarks ++ rest))))) =
        .ok (stripChars X)) ∧
    (∀ pre M mid R post : List Char,
      (∀ c ∈ pre ++ (M ++ (mid ++ (R ++ post))), c ≠ bt) →
      matchCI kwMATCH M = some [] → matchCI kwRETURN R = some [] →
      (∀ i, i < pre.length →
        (matchCI kwMATCH (pre.drop i ++ (M ++ (mid ++ (R ++ post))))).isSome = false) →
      (∀ i, i < mid.length →
        (matchCI kwRETURN (mid.drop i ++ (R ++ post))).isSome = false) →
      (∀ c ∈ mid, c ≠ ';') → hasBlankLine mid = false →
      extract_cypher_from_response (pre ++ (M ++ (mid ++ (R ++ post)))) =
        .ok (stripChars (M ++ (mid ++ R)))) :=
  ⟨fun _ _ _ _ hpre hX hT => extract_fenced hpre hX hT,
   fun _ _ _ _ _ hbt hM hR hpre hret hsemi hnn =>
    extract_match_span hbt hM hR hpre hret hsemi hnn⟩

/-- Witness for the amended C6: both halves at concrete responses. -/
theorem extractor_roundtrip_amended_witness :
    extract_cypher_from_response
      (("see ").data ++ (fenceMarks ++ (tagCypher ++ (("\nMATCH (n) RETURN n\n").data ++
        (fenceMarks ++ (" done").data))))) =
      .ok (stripChars ("\nMATCH (n) RETURN n\n").data) ∧
    extract_cypher_from_response
      (("Answer: ").data ++ (("MATCH").data ++ ((" (n) ").data ++
        (("RETURN").data ++ (" n").data)))) =
      .ok (stripChars (("MATCH").data ++ ((" (n) ").data ++ ("RETURN").data))) := by
  constructor
  · exact extractor_roundtrip_amended.1 (("see ").data) tagCypher
      (("\nMATCH (n) RETURN n\n").data) ((" done").data)
      (by decide) (by decide) (Or.inl rfl)
  · exact extractor_roundtrip_amended.2 (("Answer: ").data) (("MATCH").data)
      ((" (n) ").data) (("RETURN").data) ((" n").data)
      (by decide) (by decide) (by decide) (by decide) (by decide) (by decide) (by decide)

/-! ## Claim C10 -/

/-- C10.  The Extractor's first-preference rule fires for a fenced code
block whether it carries a `cypher`/`neo4j` tag or none at all, and when
the response contains several fenced blocks (anything may follow in
`rest`, including further blocks) it returns the trimmed contents of the
first one, ignoring later blocks and the surrounding prose. -/
theorem extractor_first_fenced_block (pre T X rest : List Char)
    (hpre : ∀ c ∈ pre, c ≠ bt) (hX : ∀ c ∈ X, c ≠ bt) (hT : TagOk T X) :
    extract_cypher_from_response
      (pre ++ (fenceMarks ++ (T ++ (X ++ (fenceMarks ++ rest))))) =
      .ok (stripChars X) :=
  extract_fenced hpre hX hT

/-- Witness for C10: an untagged first block followed by a second, tagged
block; the first block's trimmed contents are returned. -/
theorem extractor_first_fenced_block_witness :
    extract_cypher_from_response
      (("Result: ").data ++ (fenceMarks ++ ([] ++ (("MATCH (x) RETURN x").data ++
        (fenceMarks ++ ((" or ").data ++ fenceMarks ++ tagCypher ++
          ("\nMATCH (y) RETURN y\n").data ++ fenceMarks)))))) =
      .ok (stripChars ("MATCH (x) RETURN x").data) :=
  extractor_first_fenced_block (("Result: ").data) [] (("MATCH (x) RETURN x").data)
    ((" or ").data ++ fenceMarks ++ tagCypher ++ ("\nMATCH (y) RETURN y\n").data ++
      fenceMarks)
    (by decide) (by decide) (Or.inr (Or.inr ⟨rfl, by decide, by decide⟩))

end KG
